import Mathlib

/-!
Verification development for the `compilador_banco` repository
(`src/main.rs`): an incremental LaTeX-to-HTML build tool.  The
definitions below are a shallow embedding of the Rust source:

* the in-memory modification-time table (`HashMap<String, String>`)
  becomes an association list with unique keys (`insertKV` models
  `HashMap::insert`, `List.lookup` models `HashMap::get`);
* chrono instants (`DateTime<Utc>`) become pairs `(seconds : Int,
  nanoseconds : Nat)` compared lexicographically (`tsGt` models the
  strict `>` used in `main`);
* `NaiveDateTime::parse_from_str(_, "%s")` becomes `parseTimestamp`
  (an optional sign followed by decimal digits), and
  `i64::to_string` becomes `intToString`;
* the per-file loop body of `main` becomes `processFile`, which
  returns the console events it emits together with `none` when the
  original code would panic via `unwrap`/`expect`; the loop is
  `runFiles`, and `fullRun` adds the final `save_times` call;
* filesystem effects (file existence, `metadata().modified()`,
  `create_dir_all`, `Command::spawn`, the subprocess exit status,
  `Utc::now().timestamp()`, and the canonicalized path) are supplied
  as a per-file environment record `FileCtx`; `canonicalize` is
  modelled as the precomputed `canon` field.
-/

namespace CompiladorBanco

/-- The in-memory ledger: `HashMap<String, String>` from canonical
path to the stored timestamp string, as an association list with
unique keys. -/
abbrev Ledger := List (String × String)

/-- Remove the binding of `k` from an association list. -/
def eraseKey (k : String) : Ledger → Ledger
  | [] => []
  | p :: t => if p.1 == k then eraseKey k t else p :: eraseKey k t

/-- `HashMap::insert`: replace any existing binding of `k`. -/
def insertKV (m : Ledger) (k v : String) : Ledger :=
  (k, v) :: eraseKey k m

/-- Strict comparison of chrono instants `(seconds, nanoseconds)`,
lexicographic, as used by `DateTime<Utc> > DateTime<Utc>` in `main`. -/
def tsGt (a b : Int × Nat) : Bool :=
  decide (b.1 < a.1) || (decide (a.1 = b.1) && decide (b.2 < a.2))

/-- Numeric value of an ASCII digit character, `none` otherwise. -/
def digitVal (c : Char) : Option Nat :=
  if c.isDigit then some (c.toNat - 48) else none

/-- Parse a run of decimal digits, most significant first, onto an
accumulator; fails on the first non-digit. -/
def parseNatAux : List Char → Nat → Option Nat
  | [], a => some a
  | c :: cs, a =>
    match digitVal c with
    | none => none
    | some d => parseNatAux cs (a * 10 + d)

/-- `NaiveDateTime::parse_from_str(s, "%s")` on the character list:
an optional leading minus sign followed by at least one decimal
digit, read as seconds since the Unix epoch. -/
def parseTimestampList : List Char → Option Int
  | [] => none
  | c :: cs =>
    if c = '-' then
      if cs = [] then none
      else (parseNatAux cs 0).map (fun n => -(n : Int))
    else (parseNatAux (c :: cs) 0).map (fun n => (n : Int))

/-- `NaiveDateTime::parse_from_str(s, "%s")`. -/
def parseTimestamp (s : String) : Option Int :=
  parseTimestampList s.toList

/-- The ASCII character of a digit. -/
def digitChar (d : Nat) : Char := Char.ofNat (48 + d)

/-- Decimal digits of `n`, most significant first, prepended to
`acc`.  Fuel-based so that the kernel can evaluate it; `fuel ≥ n`
suffices. -/
def natToDigitsGo : Nat → Nat → List Char → List Char
  | 0, n, acc => digitChar n :: acc
  | fuel + 1, n, acc =>
    if n < 10 then digitChar n :: acc
    else natToDigitsGo fuel (n / 10) (digitChar (n % 10) :: acc)

/-- Decimal digits of `n`, most significant first. -/
def natToDigits (n : Nat) : List Char := natToDigitsGo n n []

/-- `i64::to_string` for the value of `Utc::now().timestamp()`. -/
def intToString (i : Int) : String :=
  match i with
  | Int.ofNat n => String.mk (natToDigits n)
  | Int.negSucc m => String.mk ('-' :: natToDigits (m + 1))

/-- `is_stale` logic inlined in `main`'s condition: the file's
modification instant is compared with the ledger entry for its
canonical path, parsed with `"%s"`; a missing entry defaults to the
string `"0"`.  `none` models the `unwrap` panic when the stored
timestamp does not parse. -/
def is_stale (times : Ledger) (canon : String) (mtime : Int × Nat) : Option Bool :=
  match parseTimestamp ((List.lookup canon times).getD "0") with
  | none => none
  | some t => some (tsGt mtime (t, 0))

/-- Console events emitted by the per-file loop of `main`. -/
inductive Event where
  | errNotExist : Event
  | compiling : Event
  | successMsg : Event
  | noChanges : Event
  | writeError : String → Event
deriving DecidableEq, Repr

/-- Per-file filesystem/subprocess environment for one iteration of
`main`'s loop: whether the path still exists, the canonicalized path,
the modification instant (`none` models a failing
`metadata()/modified()` call), whether `create_dir_all` and
`Command::spawn` succeed, the subprocess exit code, and the value of
`Utc::now().timestamp()` at the ledger-update point. -/
structure FileCtx where
  present : Bool
  canon : String
  mtime : Option (Int × Nat)
  mkdirOk : Bool
  spawnOk : Bool
  exitCode : Nat
  now : Int
deriving Repr

/-- One iteration of `main`'s `for file in files` loop: returns the
events printed for this file and `some` updated ledger, or `none`
when the original code panics (`metadata().unwrap()`,
`modified().unwrap()`, timestamp-parse `unwrap`, `create_dir_all`
`unwrap`, `spawn().unwrap()`).  Note that the exit status returned by
`wait()` is never inspected and the success message is printed
unconditionally, and that a non-existing path is skipped *before* the
ledger update. -/
def processFile (times : Ledger) (f : FileCtx) : List Event × Option Ledger :=
  if f.present = false then ([Event.errNotExist], some times)
  else
    match f.mtime with
    | none => ([], none)
    | some mt =>
      match is_stale times f.canon mt with
      | none => ([], none)
      | some true =>
        if f.mkdirOk = false then ([Event.compiling], none)
        else if f.spawnOk = false then ([Event.compiling], none)
        else ([Event.compiling, Event.successMsg],
              some (insertKV times f.canon (intToString f.now)))
      | some false =>
        ([Event.noChanges], some (insertKV times f.canon (intToString f.now)))

/-- The whole `for` loop of `main`: fold `processFile` over the
scanned files, accumulating events; a panic (`none`) aborts the run,
keeping the events already printed. -/
def runFiles (times : Ledger) : List FileCtx → List Event × Option Ledger
  | [] => ([], some times)
  | f :: fs =>
    match processFile times f with
    | (evs, none) => (evs, none)
    | (evs, some t) =>
      match runFiles t fs with
      | (evs2, r) => (evs ++ evs2, r)

/-- `save_times`: `File::create(...).unwrap()` panics when creation
fails (`createOk = false`); each entry is written with `writeln!`,
and a failing write is reported and skipped without aborting.
Returns the persisted set of records, or `none` for the panic. -/
def save_times (createOk : Bool) (writeOk : String × String → Bool)
    (m : Ledger) : Option Ledger :=
  if createOk then some (m.filter writeOk) else none

/-- Outcome of a whole run: normal completion (exit code 0) with the
emitted events and the persisted ledger records, or a panic (abnormal
termination) with the events printed before it. -/
inductive RunOutcome where
  | ok : List Event → Ledger → RunOutcome
  | panicked : List Event → RunOutcome
deriving DecidableEq, Repr

/-- The portion of `main` after startup: process every scanned file,
then persist the ledger with `save_times`. -/
def fullRun (loaded : Ledger) (fs : List FileCtx) (createOk : Bool)
    (writeOk : String × String → Bool) : RunOutcome :=
  match runFiles loaded fs with
  | (evs, none) => RunOutcome.panicked evs
  | (evs, some t) =>
    match save_times createOk writeOk t with
    | none => RunOutcome.panicked evs
    | some saved =>
      RunOutcome.ok
        (evs ++ (t.filter (fun e => !(writeOk e))).map (fun e => Event.writeError e.1))
        saved

/-- Split a character list at the first occurrence of `sep`
(`str::split_once`): `none` when `sep` does not occur. -/
def splitFirstChar (sep : Char) : List Char → Option (List Char × List Char)
  | [] => none
  | c :: cs =>
    if c = sep then some ([], cs)
    else (splitFirstChar sep cs).map (fun p => (c :: p.1, p.2))

/-- Split a character list at the last occurrence of `sep`
(`str::rsplit_once`). -/
def rsplitOnceChar (sep : Char) (s : List Char) : Option (List Char × List Char) :=
  (splitFirstChar sep s.reverse).map (fun p => (p.2.reverse, p.1.reverse))

/-- Split at every newline character; the pieces still carry any
trailing carriage return. -/
def splitOnNl : List Char → List (List Char)
  | [] => [[]]
  | c :: cs =>
    let r := splitOnNl cs
    if c = '\n' then [] :: r
    else
      match r with
      | [] => [[c]]
      | h :: t => (c :: h) :: t

/-- Drop the final piece when it is empty (a trailing line
terminator yields no extra line in `str::lines`). -/
def dropFinalEmpty (ls : List (List Char)) : List (List Char) :=
  if ls.getLast? = some [] then ls.dropLast else ls

/-- Strip one trailing carriage return (the `\r` of a `\r\n` line
ending). -/
def rstripCR (l : List Char) : List Char :=
  if l.getLast? = some '\r' then l.dropLast else l

/-- `str::lines` on the ledger file contents. -/
def linesOf (s : String) : List String :=
  ((dropFinalEmpty (splitOnNl s.toList)).map rstripCR).map (fun l => String.mk l)

/-- The parsing loop of `get_times`: each line is split at the first
`';'` (`split_once(";").unwrap()` — `none` models the panic on a line
with no delimiter) and inserted into the map; the timestamp field is
stored as-is, without validation. -/
def get_times_lines : List String → Ledger → Option Ledger
  | [], m => some m
  | l :: ls, m =>
    match splitFirstChar ';' l.toList with
    | none => none
    | some p => get_times_lines ls (insertKV m (String.mk p.1) (String.mk p.2))

/-- `get_times`: a failing read of the `.compilador_banco` file
(`contents = none`) yields an empty map with a warning; otherwise
every line must split at `';'` or the whole load panics. -/
def get_times (contents : Option String) : Option Ledger :=
  match contents with
  | none => some []
  | some c => get_times_lines (linesOf c) []

/-- The output-path computation in `main`'s stale branch:
`html_dir.join(rel)` rendered as a string, split at the *last* dot
(`rsplit_once(".")`, whose `unwrap` makes the result optional), with
`".html"` appended to the part before the dot. -/
def computeOutputPath (htmlDir rel : List Char) : Option (List Char) :=
  (rsplitOnceChar '.' (htmlDir ++ '/' :: rel)).map
    (fun p => p.1 ++ ".html".toList)

/-- A filesystem node as seen by `find_tex`: a regular file, a
directory with its entries, or anything else (symlink to nothing,
socket, ...), each carrying its file name. -/
inductive FsEntry where
  | file : String → FsEntry
  | dir : String → List FsEntry → FsEntry
  | special : String → FsEntry
deriving Repr

/-- `Path::extension` on a file name: the portion after the last
dot, unless there is no dot or the only dot is the leading one. -/
def extName (f : List Char) : Option (List Char) :=
  match rsplitOnceChar '.' f with
  | none => none
  | some p => if p.1 = [] then none else some p.2

/-- The scanner's per-file test:
`item.extension().unwrap_or_default() == "tex"`. -/
def texMatch (n : String) : Bool :=
  (extName n.toList).getD [] == "tex".toList

mutual
/-- Paths (as component lists, relative to the entry's parent) of
the `.tex` regular files found below one directory entry, in the
order `find_tex` produces them. -/
def findTexOne : FsEntry → List (List String)
  | FsEntry.file n => if texMatch n then [[n]] else []
  | FsEntry.dir n sub => (findTexList sub).map (fun p => n :: p)
  | FsEntry.special _ => []

/-- The recursion of `find_tex` over the entries of one directory:
matching files are pushed and subdirectories are recursed into, in
entry order. -/
def findTexList : List FsEntry → List (List String)
  | [] => []
  | e :: es => findTexOne e ++ findTexList es
end

/-- `find_tex(base)`: a root that is not a directory (including a
nonexistent one, `none`) yields the empty list; otherwise the
directory's entries are scanned recursively.  Paths are relative to
the root. -/
def find_tex (root : Option FsEntry) : List (List String) :=
  match root with
  | some (FsEntry.dir _ sub) => findTexList sub
  | _ => []

/-- Specification-side characterization: `OnePath e p` holds when
`p` is the relative path of a regular file below entry `e` whose
extension is exactly `tex`. -/
inductive OnePath : FsEntry → List String → Prop where
  | file : ∀ n, extName n.toList = some ("tex".toList) →
      OnePath (FsEntry.file n) [n]
  | dir : ∀ n sub e p, e ∈ sub → OnePath e p →
      OnePath (FsEntry.dir n sub) (n :: p)

/-! ### Decimal round-trip lemmas -/

theorem digitVal_digitChar : ∀ d, d < 10 → digitVal (digitChar d) = some d := by
  decide

theorem digitChar_ne_minus : ∀ d, d < 10 → ¬ digitChar d = '-' := by
  decide

theorem parseNatAux_append (l1 l2 : List Char) :
    ∀ a, parseNatAux (l1 ++ l2) a =
      (parseNatAux l1 a).bind (fun m => parseNatAux l2 m) := by
  induction l1 with
  | nil => intro a; simp [parseNatAux]
  | cons c cs ih =>
    intro a
    simp only [List.cons_append, parseNatAux]
    cases digitVal c with
    | none => simp
    | some d => simp [ih]

theorem natToDigitsGo_append :
    ∀ fuel n acc, n ≤ fuel →
      natToDigitsGo fuel n acc = natToDigitsGo fuel n [] ++ acc := by
  intro fuel
  induction fuel with
  | zero =>
    intro n acc h
    have hn : n = 0 := Nat.le_zero.mp h
    subst hn
    simp [natToDigitsGo]
  | succ k ih =>
    intro n acc h
    by_cases h10 : n < 10
    · simp [natToDigitsGo, h10]
    · have hdiv : n / 10 ≤ k := by omega
      simp only [natToDigitsGo, if_neg h10]
      rw [ih (n / 10) (digitChar (n % 10) :: acc) hdiv,
        ih (n / 10) [digitChar (n % 10)] hdiv, List.append_assoc]
      simp

theorem natToDigitsGo_parse :
    ∀ fuel n, n ≤ fuel → parseNatAux (natToDigitsGo fuel n []) 0 = some n := by
  intro fuel
  induction fuel with
  | zero =>
    intro n h
    have hn : n = 0 := Nat.le_zero.mp h
    subst hn
    decide
  | succ k ih =>
    intro n h
    by_cases h10 : n < 10
    · simp [natToDigitsGo, h10, parseNatAux, digitVal_digitChar n h10]
    · have hdiv : n / 10 ≤ k := by omega
      simp only [natToDigitsGo, if_neg h10]
      rw [natToDigitsGo_append k (n / 10) [digitChar (n % 10)] hdiv,
        parseNatAux_append, ih (n / 10) hdiv]
      have hm : n % 10 < 10 := Nat.mod_lt _ (by omega)
      simp [parseNatAux, digitVal_digitChar (n % 10) hm]
      omega

theorem natToDigitsGo_head :
    ∀ fuel n acc, n ≤ fuel →
      ∃ d rest, d < 10 ∧ natToDigitsGo fuel n acc = digitChar d :: rest := by
  intro fuel
  induction fuel with
  | zero =>
    intro n acc h
    have hn : n = 0 := Nat.le_zero.mp h
    subst hn
    exact ⟨0, acc, by omega, rfl⟩
  | succ k ih =>
    intro n acc h
    by_cases h10 : n < 10
    · exact ⟨n, acc, h10, by simp [natToDigitsGo, h10]⟩
    · have hdiv : n / 10 ≤ k := by omega
      obtain ⟨d, rest, hd, hds⟩ := ih (n / 10) (digitChar (n % 10) :: acc) hdiv
      exact ⟨d, rest, hd, by simp [natToDigitsGo, h10, hds]⟩

theorem toList_mk (l : List Char) : (String.mk l).toList = l := rfl

theorem parseTimestamp_intToString (i : Int) :
    parseTimestamp (intToString i) = some i := by
  cases i with
  | ofNat n =>
    obtain ⟨d, rest, hd, hds⟩ := natToDigitsGo_head n n [] (Nat.le_refl n)
    have hparse : parseNatAux (natToDigits n) 0 = some n :=
      natToDigitsGo_parse n n (Nat.le_refl n)
    simp only [intToString, parseTimestamp, toList_mk, natToDigits] at *
    rw [hds] at hparse ⊢
    simp [parseTimestampList, digitChar_ne_minus d hd, hparse]
  | negSucc m =>
    obtain ⟨d, rest, hd, hds⟩ :=
      natToDigitsGo_head (m + 1) (m + 1) [] (Nat.le_refl (m + 1))
    have hparse : parseNatAux (natToDigits (m + 1)) 0 = some (m + 1) :=
      natToDigitsGo_parse (m + 1) (m + 1) (Nat.le_refl (m + 1))
    simp only [intToString, parseTimestamp, toList_mk, natToDigits] at *
    rw [hds] at hparse ⊢
    simp [parseTimestampList, hparse, Int.negSucc_eq]

/-! ### Ledger-map lemmas -/

theorem lookup_cons_eq (k v : String) (t : Ledger) :
    List.lookup k ((k, v) :: t) = some v := by
  simp [List.lookup]

theorem lookup_cons_ne (k a v : String) (t : Ledger) (h : ¬ k = a) :
    List.lookup k ((a, v) :: t) = List.lookup k t := by
  have hb : (k == a) = false := beq_eq_false_iff_ne.mpr h
  simp [List.lookup, hb]

theorem lookup_insertKV_self (m : Ledger) (k v : String) :
    List.lookup k (insertKV m k v) = some v :=
  lookup_cons_eq k v _

theorem lookup_eraseKey_ne (k k' : String) (h : ¬ k' = k) :
    ∀ m : Ledger, List.lookup k' (eraseKey k m) = List.lookup k' m := by
  intro m
  induction m with
  | nil => simp [eraseKey]
  | cons a t ih =>
    by_cases hak : a.1 = k
    · have hb : (a.1 == k) = true := beq_iff_eq.mpr hak
      have hka : ¬ k' = a.1 := by rw [hak]; exact h
      rw [eraseKey, if_pos hb, ih, show a = (a.1, a.2) from rfl,
        lookup_cons_ne k' a.1 a.2 t hka]
    · have hb : (a.1 == k) = false := beq_eq_false_iff_ne.mpr hak
      rw [eraseKey, if_neg (by rw [hb]; exact Bool.false_ne_true)]
      by_cases hka : k' = a.1
      · rw [show a = (a.1, a.2) from rfl, ← hka, lookup_cons_eq, lookup_cons_eq]
      · rw [show a = (a.1, a.2) from rfl, lookup_cons_ne k' a.1 a.2 _ hka,
          lookup_cons_ne k' a.1 a.2 t hka, ih]

theorem lookup_insertKV_ne (m : Ledger) (k v k' : String) (h : ¬ k' = k) :
    List.lookup k' (insertKV m k v) = List.lookup k' m := by
  unfold insertKV
  rw [lookup_cons_ne k' k v _ h]
  exact lookup_eraseKey_ne k k' h m

/-- Every non-panicking iteration of the loop either leaves the map
unchanged (vanished file) or records `now` under the file's
canonical path. -/
theorem processFile_ledger (m : Ledger) (f : FileCtx) (evs : List Event)
    (t : Ledger) (h : processFile m f = (evs, some t)) :
    t = m ∨ t = insertKV m f.canon (intToString f.now) := by
  unfold processFile at h
  split at h
  · exact Or.inl (by injection h with h1 h2; injection h2 with h3; exact h3.symm)
  · split at h
    · injection h with h1 h2; cases h2
    · split at h
      · injection h with h1 h2; cases h2
      · split at h
        · injection h with h1 h2; cases h2
        · split at h
          · injection h with h1 h2; cases h2
          · exact Or.inr (by injection h with h1 h2; injection h2 with h3; exact h3.symm)
      · exact Or.inr (by injection h with h1 h2; injection h2 with h3; exact h3.symm)

/-- A visited file that still exists always gets its ledger entry
set to the `now` recorded for it, whatever the staleness outcome. -/
theorem processFile_present (m : Ledger) (f : FileCtx) (evs : List Event)
    (t : Ledger) (hp : f.present = true) (h : processFile m f = (evs, some t)) :
    t = insertKV m f.canon (intToString f.now) := by
  unfold processFile at h
  rw [hp] at h
  simp only [Bool.true_eq_false, if_false] at h
  split at h
  · injection h with h1 h2; cases h2
  · split at h
    · injection h with h1 h2; cases h2
    · split at h
      · injection h with h1 h2; cases h2
      · split at h
        · injection h with h1 h2; cases h2
        · injection h with h1 h2; injection h2 with h3; exact h3.symm
    · injection h with h1 h2; injection h2 with h3; exact h3.symm

/-- Keys of files not visited in the run keep their loaded value:
the final map agrees with the initial one outside the visited
canonical paths. -/
theorem runFiles_lookup_preserved :
    ∀ (fs : List FileCtx) (m : Ledger) (evs : List Event) (t : Ledger)
      (k : String),
      runFiles m fs = (evs, some t) → (∀ f ∈ fs, ¬ f.canon = k) →
      List.lookup k t = List.lookup k m := by
  intro fs
  induction fs with
  | nil =>
    intro m evs t k h _
    unfold runFiles at h
    injection h with h1 h2
    injection h2 with h3
    rw [h3]
  | cons f fs ih =>
    intro m evs t k h hk
    unfold runFiles at h
    cases hpf : processFile m f with
    | mk evs1 r1 =>
      rw [hpf] at h
      cases r1 with
      | none => injection h with h1 h2; cases h2
      | some t' =>
        dsimp only at h
        cases hr : runFiles t' fs with
        | mk evs2 r2 =>
          rw [hr] at h
          dsimp only at h
          injection h with h1 h2
          subst h2
          have htail : List.lookup k t = List.lookup k t' :=
            ih t' evs2 t k hr (fun g hg => hk g (List.mem_cons_of_mem f hg))
          have hhead : ¬ f.canon = k := hk f (List.mem_cons_self f fs)
          rcases processFile_ledger m f evs1 t' hpf with hsame | hins
          · rw [htail, hsame]
          · rw [htail, hins, lookup_insertKV_ne m f.canon _ k (Ne.symm hhead)]

/-- After a completed run with pairwise-distinct canonical paths,
every visited existing file's entry holds the `now` recorded for
it. -/
theorem runFiles_lookup_visited :
    ∀ (fs : List FileCtx) (m : Ledger) (evs : List Event) (t : Ledger),
      runFiles m fs = (evs, some t) →
      (fs.map (fun f => f.canon)).Nodup →
      ∀ f ∈ fs, f.present = true →
        List.lookup f.canon t = some (intToString f.now) := by
  intro fs
  induction fs with
  | nil => intro m evs t _ _ f hf; cases hf
  | cons g fs ih =>
    intro m evs t h hnd f hf hp
    unfold runFiles at h
    cases hpf : processFile m g with
    | mk evs1 r1 =>
      rw [hpf] at h
      cases r1 with
      | none => injection h with h1 h2; cases h2
      | some t' =>
        dsimp only at h
        cases hr : runFiles t' fs with
        | mk evs2 r2 =>
          rw [hr] at h
          dsimp only at h
          injection h with h1 h2
          subst h2
          rcases List.mem_cons.mp hf with hfg | hftail
          · subst hfg
            have hins := processFile_present m f evs1 t' hp hpf
            have hne : ∀ g' ∈ fs, ¬ g'.canon = f.canon := by
              intro g' hg' heq
              have : f.canon ∈ fs.map (fun f => f.canon) := by
                rw [← heq]; exact List.mem_map_of_mem _ hg'
              exact (List.nodup_cons.mp (by simpa using hnd)).1 this
            rw [runFiles_lookup_preserved fs t' evs2 t f.canon hr hne, hins,
              lookup_insertKV_self]
          · exact ih t' evs2 t hr (List.nodup_cons.mp (by simpa using hnd)).2
              f hftail hp

/-- An existing file evaluated as fresh prints the "no changes"
message and records `now`. -/
theorem processFile_fresh (m : Ledger) (f : FileCtx) (mt : Int × Nat)
    (hp : f.present = true) (hmt : f.mtime = some mt)
    (hst : is_stale m f.canon mt = some false) :
    processFile m f =
      ([Event.noChanges], some (insertKV m f.canon (intToString f.now))) := by
  unfold processFile
  rw [hp, hmt]
  simp only [Bool.true_eq_false, if_false]
  rw [hst]

/-- Core of the no-op-rerun analysis: if every file of the first run
still exists, has an unchanged modification time, distinct canonical
paths, and a modification instant not after the whole second the
first run recorded for it, then the second run classifies every file
as "no changes" and completes. -/
theorem runFiles_secondRun :
    ∀ (fs fs2 : List FileCtx) (m : Ledger),
      List.Forall₂
        (fun f g => f.present = g.present ∧ f.canon = g.canon ∧ f.mtime = g.mtime)
        fs fs2 →
      (fs.map (fun f => f.canon)).Nodup →
      (∀ f ∈ fs, f.present = true ∧
        ∃ s ns, f.mtime = some (s, ns) ∧ tsGt (s, ns) (f.now, 0) = false) →
      (∀ f ∈ fs, List.lookup f.canon m = some (intToString f.now)) →
      (runFiles m fs2).1 = fs2.map (fun _ => Event.noChanges) ∧
        (runFiles m fs2).2.isSome = true := by
  intro fs fs2 m hall
  induction hall generalizing m with
  | nil => intro _ _ _; simp [runFiles]
  | @cons f g fs' fs2' hfg hrest ih =>
    intro hnd hfresh hm
    obtain ⟨hp, hcanon, hmtime⟩ := hfg
    obtain ⟨hpf, s, ns, hmt, hts⟩ := hfresh f (List.mem_cons_self f fs')
    have hgp : g.present = true := by rw [← hp]; exact hpf
    have hgmt : g.mtime = some (s, ns) := by rw [← hmtime]; exact hmt
    have hlook : List.lookup g.canon m = some (intToString f.now) := by
      rw [← hcanon]; exact hm f (List.mem_cons_self f fs')
    have hst : is_stale m g.canon (s, ns) = some false := by
      unfold is_stale
      rw [hlook]
      simp only [Option.getD_some]
      rw [parseTimestamp_intToString f.now]
      dsimp only
      rw [hts]
    have hproc := processFile_fresh m g (s, ns) hgp hgmt hst
    have hndtail : (fs'.map (fun f => f.canon)).Nodup :=
      (List.nodup_cons.mp (by simpa using hnd)).2
    have hmtail : ∀ f' ∈ fs',
        List.lookup f'.canon (insertKV m g.canon (intToString g.now)) =
          some (intToString f'.now) := by
      intro f' hf'
      have hne : ¬ f'.canon = g.canon := by
        rw [← hcanon]
        intro heq
        have : f.canon ∈ fs'.map (fun f => f.canon) := by
          rw [← heq]; exact List.mem_map_of_mem _ hf'
        exact (List.nodup_cons.mp (by simpa using hnd)).1 this
      rw [lookup_insertKV_ne m g.canon _ f'.canon hne]
      exact hm f' (List.mem_cons_of_mem f hf')
    have htail := ih (insertKV m g.canon (intToString g.now)) hndtail
      (fun f' hf' => hfresh f' (List.mem_cons_of_mem f hf')) hmtail
    unfold runFiles
    rw [hproc]
    dsimp only
    cases hr : runFiles (insertKV m g.canon (intToString g.now)) fs2' with
    | mk evs2 r2 =>
      rw [hr] at htail
      dsimp only at htail
      refine ⟨?_, ?_⟩
      · dsimp only
        rw [htail.1]
        simp
      · dsimp only
        exact htail.2

/-! ### Claims C2, C3, C4 -/

/-- Claim C2, counterexample: for a file with no ledger entry whose
modification instant is exactly the Unix epoch, the staleness
decision is `false`, while the claim requires it to be always `true`
when no entry exists. -/
theorem C2_counterexample :
    List.lookup "f" ([] : Ledger) = none ∧
      is_stale [] "f" (0, 0) = some false := by
  decide

/-- Claim C2 (amended): the staleness decision is true exactly when the
file's modification instant is strictly after the recorded
whole-second timestamp, where a missing ledger entry counts as
timestamp 0 (the Unix epoch); hence a file with no ledger entry is
stale iff its modification time is strictly after the epoch, not
unconditionally. -/
theorem C2_amended_thm :
    (∀ (times : Ledger) (canon : String) (s : Int) (ns : Nat),
      List.lookup canon times = none →
      (is_stale times canon (s, ns) = some true ↔
        (0 < s ∨ (s = 0 ∧ 0 < ns)))) ∧
    (∀ (times : Ledger) (canon : String) (s : Int) (ns : Nat)
      (st : String) (t : Int),
      List.lookup canon times = some st → parseTimestamp st = some t →
      (is_stale times canon (s, ns) = some true ↔
        (t < s ∨ (s = t ∧ 0 < ns)))) := by
  constructor
  · intro times canon s ns h
    unfold is_stale
    rw [h]
    simp only [Option.getD_none]
    rw [show parseTimestamp "0" = some 0 from by decide]
    simp [tsGt]
  · intro times canon s ns st t h hparse
    unfold is_stale
    rw [h]
    simp only [Option.getD_some]
    rw [hparse]
    simp [tsGt]

/-- Claim C2 witness: a never-recorded file modified after the epoch is
stale. -/
theorem C2_amended_witness : is_stale [] "k" (3, 0) = some true :=
  (C2_amended_thm.1 [] "k" 3 0 rfl).mpr (Or.inl (by decide))

/-- Claim C3, counterexample: ledger records second 5, the file's
modification time is second 5 plus one nanosecond (same whole
second), yet the file is classified stale — the claim requires
"fresh". -/
theorem C3_counterexample :
    parseTimestamp "5" = some 5 ∧
      is_stale [("f", "5")] "f" (5, 1) = some true := by
  decide

/-- Claim C3 (amended): the modification time is compared at full
sub-second precision against the whole-second ledger value: a file
whose modification time falls in the same whole second as the
recorded timestamp is classified stale exactly when its sub-second
fraction is positive (fresh only at exactly the whole second). -/
theorem C3_amended_thm (times : Ledger) (canon st : String) (t : Int)
    (ns : Nat) (h1 : List.lookup canon times = some st)
    (h2 : parseTimestamp st = some t) :
    is_stale times canon (t, ns) = some (decide (0 < ns)) := by
  unfold is_stale
  rw [h1]
  simp only [Option.getD_some]
  rw [h2]
  simp [tsGt]

/-- Claim C3 witness: same whole second, 4 ns fraction, classified
stale. -/
theorem C3_amended_witness :
    is_stale [("f", "7")] "f" (7, 4) = some (decide (0 < (4 : Nat))) :=
  C3_amended_thm [("f", "7")] "f" "7" 7 4 (by decide) (by decide)

/-- Claim C4, counterexample: a file modified at instant (10 s, 5 ns); the
first run records `Utc::now().timestamp() = 10` (the run happens
later in the same second, so nothing changes on disk afterwards),
but the second run, with no filesystem changes, classifies the file
as stale again ("Compiling", not "no changes"). -/
theorem C4_counterexample :
    runFiles [] [⟨true, "f", some (10, 5), true, true, 0, 10⟩] =
      ([Event.compiling, Event.successMsg], some [("f", "10")]) ∧
    (runFiles [("f", "10")]
        [⟨true, "f", some (10, 5), true, true, 0, 11⟩]).1 =
      [Event.compiling, Event.successMsg] ∧
    ¬ (runFiles [("f", "10")]
        [⟨true, "f", some (10, 5), true, true, 0, 11⟩]).1 =
      [Event.noChanges] := by
  decide

/-- Claim C4 (amended): a no-op rerun classifies every file as
"no changes" provided each file's full-precision modification
instant does not exceed the whole second recorded for it in the
first run (in particular whenever the first run's `now` fell in a
strictly later second than the file's modification time); a
modification instant with a positive sub-second fraction inside the
recording second is re-classified stale, as the counterexample
shows. -/
theorem C4_amended_thm (loaded : Ledger) (fs fs2 : List FileCtx)
    (evs : List Event) (t1 : Ledger)
    (hrun : runFiles loaded fs = (evs, some t1))
    (hnd : (fs.map (fun f => f.canon)).Nodup)
    (hagree : List.Forall₂
      (fun f g => f.present = g.present ∧ f.canon = g.canon ∧ f.mtime = g.mtime)
      fs fs2)
    (hfresh : ∀ f ∈ fs, f.present = true ∧
      ∃ s ns, f.mtime = some (s, ns) ∧ tsGt (s, ns) (f.now, 0) = false) :
    (runFiles t1 fs2).1 = fs2.map (fun _ => Event.noChanges) ∧
      (runFiles t1 fs2).2.isSome = true := by
  apply runFiles_secondRun fs fs2 t1 hagree hnd hfresh
  intro f hf
  exact runFiles_lookup_visited fs loaded evs t1 hrun hnd f hf (hfresh f hf).1

/-- Claim C4 witness: one file modified at second 5, first run recorded
second 9; the second run reports "no changes" and completes. -/
theorem C4_amended_witness :
    (runFiles [("w4", "9")]
        [⟨true, "w4", some (5, 0), true, true, 0, 9⟩]).1 =
      List.map (fun _ => Event.noChanges)
        [(⟨true, "w4", some (5, 0), true, true, 0, 9⟩ : FileCtx)] ∧
    (runFiles [("w4", "9")]
        [⟨true, "w4", some (5, 0), true, true, 0, 9⟩]).2.isSome = true :=
  C4_amended_thm [] [⟨true, "w4", some (5, 0), true, true, 0, 9⟩]
    [⟨true, "w4", some (5, 0), true, true, 0, 9⟩]
    [Event.compiling, Event.successMsg] [("w4", "9")]
    (by decide) (by decide)
    (List.Forall₂.cons ⟨rfl, rfl, rfl⟩ List.Forall₂.nil)
    (by
      intro f hf
      rw [List.mem_singleton] at hf
      subst hf
      exact ⟨rfl, 5, 0, rfl, by decide⟩)

/-! ### Claims C1, C5, C6, C7 -/

/-- Claim C1, counterexample: a run that visits no file saves a ledger
that still contains the entry loaded for the unvisited file
`"ghost"` — the claim requires that entry to be absent from the
saved ledger. -/
theorem C1_counterexample :
    fullRun [("ghost", "5")] [] true (fun _ => true) =
      RunOutcome.ok [] [("ghost", "5")] ∧
    List.lookup "ghost" [("ghost", "5")] = some "5" := by
  decide

/-- Claim C1 (amended): saving does replace the prior ledger file's bytes
wholesale, but the in-memory map is seeded from the loaded ledger;
the saved ledger is therefore the loaded entries updated with the
current run's visits, and an entry whose file was not visited this
run is carried over unchanged rather than dropped. -/
theorem C1_amended_thm (loaded : Ledger) (fs : List FileCtx)
    (evs : List Event) (t1 : Ledger) (k : String)
    (hrun : runFiles loaded fs = (evs, some t1))
    (hk : ∀ f ∈ fs, ¬ f.canon = k) :
    fullRun loaded fs true (fun _ => true) = RunOutcome.ok evs t1 ∧
    List.lookup k t1 = List.lookup k loaded := by
  constructor
  · unfold fullRun
    rw [hrun]
    dsimp only
    unfold save_times
    simp
  · exact runFiles_lookup_preserved fs loaded evs t1 k hrun hk

/-- Claim C1 witness: visiting only `"f1"` keeps the loaded entry for
`"old"` in the saved ledger. -/
theorem C1_amended_witness :
    fullRun [("old", "3")] [⟨true, "f1", some (1, 0), true, true, 0, 2⟩]
        true (fun _ => true) =
      RunOutcome.ok [Event.compiling, Event.successMsg]
        [("f1", "2"), ("old", "3")] ∧
    List.lookup "old" [("f1", "2"), ("old", "3")] =
      List.lookup "old" [("old", "3")] :=
  C1_amended_thm [("old", "3")] [⟨true, "f1", some (1, 0), true, true, 0, 2⟩]
    [Event.compiling, Event.successMsg] [("f1", "2"), ("old", "3")] "old"
    (by decide) (by decide)

/-- An existing stale file whose directory creation and spawn both
succeed: "Compiling" then the unconditional success message, and the
ledger records `now` — the exit code is irrelevant. -/
theorem processFile_stale_ok (m : Ledger) (f : FileCtx) (mt : Int × Nat)
    (hp : f.present = true) (hmt : f.mtime = some mt)
    (hst : is_stale m f.canon mt = some true)
    (hmk : f.mkdirOk = true) (hsp : f.spawnOk = true) :
    processFile m f =
      ([Event.compiling, Event.successMsg],
        some (insertKV m f.canon (intToString f.now))) := by
  unfold processFile
  rw [hp, hmt]
  simp only [Bool.true_eq_false, if_false]
  rw [hst, hmk, hsp]
  simp only [Bool.true_eq_false, if_false]

/-- An existing stale file whose spawn fails: "Compiling" is
printed, then `spawn().unwrap()` panics. -/
theorem processFile_stale_spawnFail (m : Ledger) (f : FileCtx) (mt : Int × Nat)
    (hp : f.present = true) (hmt : f.mtime = some mt)
    (hst : is_stale m f.canon mt = some true)
    (hmk : f.mkdirOk = true) (hsp : f.spawnOk = false) :
    processFile m f = ([Event.compiling], none) := by
  unfold processFile
  rw [hp, hmt]
  simp only [Bool.true_eq_false, if_false]
  rw [hst, hmk, hsp]
  simp

/-- Claim C5, counterexample: a failure to spawn the converter panics and
aborts the whole run before the ledger save (no `RunOutcome.ok` is
reached), and a non-zero exit code (7) is not reported as an error —
the success message is printed and processing continues. -/
theorem C5_counterexample :
    fullRun [] [⟨true, "f5", some (1, 0), true, false, 0, 1⟩]
        true (fun _ => true) =
      RunOutcome.panicked [Event.compiling] ∧
    processFile [] ⟨true, "f5", some (1, 0), true, true, 7, 1⟩ =
      ([Event.compiling, Event.successMsg], some [("f5", "1")]) := by
  decide

/-- Claim C5 (amended): the subprocess exit status returned by `wait()` is
never inspected — the per-file outcome is independent of the exit
code and the success message is printed unconditionally, so a
non-zero exit does not abort the run (the final save is still
reached) but is not reported as an error either; a failure to spawn
panics and aborts the run before the ledger save. -/
theorem C5_amended_thm :
    (∀ (times : Ledger) (p : Bool) (c : String) (mt : Option (Int × Nat))
      (mk sp : Bool) (e1 e2 : Nat) (now : Int),
      processFile times ⟨p, c, mt, mk, sp, e1, now⟩ =
        processFile times ⟨p, c, mt, mk, sp, e2, now⟩) ∧
    (∀ (times : Ledger) (c : String) (mt : Int × Nat) (e : Nat) (now : Int),
      is_stale times c mt = some true →
      processFile times ⟨true, c, some mt, true, false, e, now⟩ =
        ([Event.compiling], none)) ∧
    (∀ (times : Ledger) (c : String) (mt : Int × Nat) (e : Nat) (now : Int),
      is_stale times c mt = some true →
      processFile times ⟨true, c, some mt, true, true, e, now⟩ =
        ([Event.compiling, Event.successMsg],
          some (insertKV times c (intToString now)))) := by
  refine ⟨fun times p c mt mk sp e1 e2 now => rfl, ?_, ?_⟩
  · intro times c mt e now h
    exact processFile_stale_spawnFail times ⟨true, c, some mt, true, false, e, now⟩
      mt rfl rfl h rfl rfl
  · intro times c mt e now h
    exact processFile_stale_ok times ⟨true, c, some mt, true, true, e, now⟩
      mt rfl rfl h rfl rfl

/-- Claim C5 witness: at exit code 7 the stale file is processed with an
unconditional success report; at a failed spawn the run panics. -/
theorem C5_amended_witness :
    processFile [] ⟨true, "g5", some (2, 0), true, false, 9, 2⟩ =
      ([Event.compiling], none) :=
  C5_amended_thm.2.1 [] "g5" (2, 0) 9 2 (by decide)

/-- Claim C6, counterexample: the first file's modification time is
unreadable; the whole run panics immediately — the second file is
never processed and the ledger save is never reached, while the
claim requires processing of the other files to continue to
completion. -/
theorem C6_counterexample :
    runFiles [] [⟨true, "a6", none, true, true, 0, 1⟩,
                 ⟨true, "b6", some (1, 0), true, true, 0, 1⟩] = ([], none) ∧
    fullRun [] [⟨true, "a6", none, true, true, 0, 1⟩,
                ⟨true, "b6", some (1, 0), true, true, 0, 1⟩]
        true (fun _ => true) =
      RunOutcome.panicked [] := by
  decide

/-- Claim C6 (amended): a file that vanished between scan and processing
is reported and skipped with the run continuing (and its ledger
entry untouched); but an unreadable modification time on an existing
file panics (`metadata().unwrap().modified().unwrap()`) and aborts
the entire run — no further file is processed and the ledger is
never saved. -/
theorem C6_amended_thm :
    (∀ (times : Ledger) (c : String) (mt : Option (Int × Nat)) (mk sp : Bool)
      (e : Nat) (now : Int),
      processFile times ⟨false, c, mt, mk, sp, e, now⟩ =
        ([Event.errNotExist], some times)) ∧
    (∀ (times : Ledger) (c : String) (mk sp : Bool) (e : Nat) (now : Int),
      processFile times ⟨true, c, none, mk, sp, e, now⟩ = ([], none)) ∧
    (∀ (loaded : Ledger) (f : FileCtx) (fs : List FileCtx) (evs : List Event),
      processFile loaded f = (evs, none) →
      runFiles loaded (f :: fs) = (evs, none)) := by
  refine ⟨fun times c mt mk sp e now => rfl, fun times c mk sp e now => rfl, ?_⟩
  intro loaded f fs evs h
  unfold runFiles
  rw [h]

/-- Claim C6 witness: an unreadable modification time at the head of the
file list aborts the whole run, skipping the files after it. -/
theorem C6_amended_witness :
    runFiles [] [⟨true, "w6", none, true, true, 0, 1⟩,
                 ⟨true, "w6b", some (1, 0), true, true, 0, 1⟩] = ([], none) :=
  C6_amended_thm.2.2 [] ⟨true, "w6", none, true, true, 0, 1⟩
    [⟨true, "w6b", some (1, 0), true, true, 0, 1⟩] [] (by decide)

/-- Claim C7, counterexample: the run converts the file, then the final
save's `File::create(...).unwrap()` fails: the program panics
(abnormal termination, not exit code 0), while the claim requires
the failure to be reported without crashing and the process to exit
with code 0. -/
theorem C7_counterexample :
    fullRun [] [⟨true, "f7", some (2, 0), true, true, 0, 3⟩]
        false (fun _ => true) =
      RunOutcome.panicked [Event.compiling, Event.successMsg] := by
  decide

/-- Claim C7 (amended): a failure to create the ledger file during the
final save panics and crashes the program (abnormal exit, not 0),
after the conversions have already been performed — those are not
rolled back, their events remain; a failure to write an individual
entry merely skips that entry and does not crash. -/
theorem C7_amended_thm :
    (∀ (w : String × String → Bool) (m : Ledger),
      save_times false w m = none) ∧
    (∀ (w : String × String → Bool) (m : Ledger),
      save_times true w m = some (m.filter w)) ∧
    (∀ (loaded : Ledger) (fs : List FileCtx) (evs : List Event) (t : Ledger)
      (w : String × String → Bool),
      runFiles loaded fs = (evs, some t) →
      fullRun loaded fs false w = RunOutcome.panicked evs) := by
  refine ⟨fun w m => rfl, fun w m => rfl, ?_⟩
  intro loaded fs evs t w h
  unfold fullRun
  rw [h]
  rfl

/-- Claim C7 witness: a run that converted one file, followed by a failing
ledger-file creation, panics while keeping the conversion's
events. -/
theorem C7_amended_witness :
    fullRun [] [⟨true, "w7", some (1, 0), true, true, 0, 4⟩]
        false (fun _ => false) =
      RunOutcome.panicked [Event.compiling, Event.successMsg] :=
  C7_amended_thm.2.2 [] [⟨true, "w7", some (1, 0), true, true, 0, 4⟩]
    [Event.compiling, Event.successMsg] [("w7", "4")] (fun _ => false)
    (by decide)

/-! ### Claims C8, C9, C10 -/

theorem splitFirstChar_append (sep : Char) :
    ∀ (l r : List Char), sep ∉ l →
      splitFirstChar sep (l ++ sep :: r) = some (l, r) := by
  intro l
  induction l with
  | nil => intro r _; simp [splitFirstChar]
  | cons c cs ih =>
    intro r h
    have hc : ¬ c = sep := fun he => h (he ▸ List.mem_cons_self c cs)
    simp only [List.cons_append, splitFirstChar, if_neg hc, List.append_eq]
    rw [ih r (fun hm => h (List.mem_cons_of_mem c hm))]
    rfl

theorem rsplitOnceChar_append (sep : Char) (s t : List Char) (h : sep ∉ t) :
    rsplitOnceChar sep (s ++ sep :: t) = some (s, t) := by
  unfold rsplitOnceChar
  have hrev : (s ++ sep :: t).reverse = t.reverse ++ sep :: s.reverse := by
    simp
  rw [hrev, splitFirstChar_append sep t.reverse s.reverse (by simpa using h)]
  simp

/-- Claim C8: tree mirroring of output paths — for every source file whose
rendered relative path ends in `.tex`, the computed converter output
path is the output root joined with the relative path, with the
`.tex` suffix replaced by `.html`. -/
theorem C8_mirroring (htmlDir r : List Char) :
    computeOutputPath htmlDir (r ++ ".tex".toList) =
      some ((htmlDir ++ '/' :: r) ++ ".html".toList) := by
  unfold computeOutputPath
  have harg : htmlDir ++ '/' :: (r ++ ".tex".toList) =
      (htmlDir ++ '/' :: r) ++ '.' :: "tex".toList := by
    rw [show ".tex".toList = '.' :: "tex".toList from rfl]
    simp
  rw [harg,
    rsplitOnceChar_append '.' (htmlDir ++ '/' :: r) "tex".toList (by decide)]
  rfl

theorem texMatch_iff (n : String) :
    texMatch n = true ↔ extName n.toList = some ("tex".toList) := by
  unfold texMatch
  cases hx : extName n.toList with
  | none =>
    simp only [Option.getD_none]
    constructor
    · intro h; exact absurd h (by decide)
    · intro h; cases h
  | some e =>
    simp only [Option.getD_some]
    rw [beq_iff_eq]
    simp

/-- Joint membership characterization of `findTexOne`/`findTexList`,
by strong induction on the size of the entry. -/
theorem findTex_mem_bounded :
    ∀ k : Nat,
      (∀ e : FsEntry, sizeOf e ≤ k →
        ∀ p, (p ∈ findTexOne e ↔ OnePath e p)) ∧
      (∀ es : List FsEntry, sizeOf es ≤ k →
        ∀ p, (p ∈ findTexList es ↔ ∃ e ∈ es, OnePath e p)) := by
  intro k
  induction k with
  | zero =>
    constructor
    · intro e h
      exfalso
      have : 0 < sizeOf e := by cases e <;> simp_arith
      omega
    · intro es h
      exfalso
      have : 0 < sizeOf es := by cases es <;> simp_arith
      omega
  | succ k ih =>
    constructor
    · intro e h p
      cases e with
      | file n =>
        rw [show findTexOne (FsEntry.file n) =
            (if texMatch n then [[n]] else []) from by simp [findTexOne]]
        by_cases ht : texMatch n
        · rw [if_pos ht, List.mem_singleton]
          constructor
          · intro hp
            subst hp
            exact OnePath.file n ((texMatch_iff n).mp ht)
          · intro hop
            cases hop with
            | file _ _ => rfl
        · rw [if_neg ht]
          constructor
          · intro hp; exact absurd hp (List.not_mem_nil p)
          · intro hop
            cases hop with
            | file _ hext => exact absurd ((texMatch_iff n).mpr hext) ht
      | special n =>
        rw [show findTexOne (FsEntry.special n) = [] from by simp [findTexOne]]
        constructor
        · intro hp; exact absurd hp (List.not_mem_nil p)
        · intro hop; cases hop
      | dir n sub =>
        have hsub : sizeOf sub ≤ k := by
          have hsz : sizeOf (FsEntry.dir n sub) = 1 + sizeOf n + sizeOf sub := by
            simp_arith
          omega
        rw [show findTexOne (FsEntry.dir n sub) =
            (findTexList sub).map (fun p => n :: p) from by simp [findTexOne]]
        rw [List.mem_map]
        constructor
        · rintro ⟨q, hq, rfl⟩
          obtain ⟨e', he', hop⟩ := (ih.2 sub hsub q).mp hq
          exact OnePath.dir n sub e' q he' hop
        · intro hop
          cases hop with
          | dir _ _ e' q he' hop' =>
            exact ⟨q, (ih.2 sub hsub q).mpr ⟨e', he', hop'⟩, rfl⟩
    · intro es h p
      cases es with
      | nil =>
        rw [show findTexList [] = [] from rfl]
        simp
      | cons e es' =>
        have hsizes : sizeOf (e :: es') = 1 + sizeOf e + sizeOf es' := by
          simp_arith
        have he : sizeOf e ≤ k := by omega
        have hes : sizeOf es' ≤ k := by omega
        rw [show findTexList (e :: es') = findTexOne e ++ findTexList es' from
          by simp [findTexList]]
        rw [List.mem_append, ih.1 e he p, ih.2 es' hes p]
        constructor
        · rintro (h1 | ⟨e', he', hop⟩)
          · exact ⟨e, List.mem_cons_self e es', h1⟩
          · exact ⟨e', List.mem_cons_of_mem e he', hop⟩
        · rintro ⟨e', he', hop⟩
          rcases List.mem_cons.mp he' with rfl | htl
          · exact Or.inl hop
          · exact Or.inr ⟨e', htl, hop⟩

/-- Claim C9: scanner contract — a root that is missing or not a directory
scans to the empty sequence, and for a directory root the scan
contains exactly the relative paths of regular files with extension
exactly `tex` (case-sensitive), at any nesting depth. -/
theorem C9_scanner :
    (∀ root : Option FsEntry,
      (∀ nm sub, ¬ root = some (FsEntry.dir nm sub)) → find_tex root = []) ∧
    (∀ (nm : String) (sub : List FsEntry) (p : List String),
      p ∈ find_tex (some (FsEntry.dir nm sub)) ↔ ∃ e ∈ sub, OnePath e p) := by
  constructor
  · intro root h
    cases root with
    | none => rfl
    | some e =>
      cases e with
      | file n => rfl
      | special n => rfl
      | dir n sub => exact absurd rfl (h n sub)
  · intro nm sub p
    rw [show find_tex (some (FsEntry.dir nm sub)) = findTexList sub from rfl]
    exact (findTex_mem_bounded (sizeOf sub)).2 sub (Nat.le_refl _) p

/-- Claim C9 witness: a file root scans empty; in a root holding
`notes.txt` and `deep/x.tex`, membership of the nested path is
exactly the characterization. -/
theorem C9_scanner_witness :
    find_tex (some (FsEntry.file "x.tex")) = [] ∧
    (["deep", "x.tex"] ∈ find_tex (some (FsEntry.dir "R"
        [FsEntry.file "notes.txt", FsEntry.dir "deep" [FsEntry.file "x.tex"]])) ↔
      ∃ e ∈ [FsEntry.file "notes.txt",
             FsEntry.dir "deep" [FsEntry.file "x.tex"]],
        OnePath e ["deep", "x.tex"]) :=
  ⟨C9_scanner.1 (some (FsEntry.file "x.tex")) (by intro nm sub h; simp at h),
   C9_scanner.2 "R"
     [FsEntry.file "notes.txt", FsEntry.dir "deep" [FsEntry.file "x.tex"]]
     ["deep", "x.tex"]⟩

/-- Claim C10: ledger loading performs no validation of the timestamp
field — the well-delimited line `f;abc` loads successfully, and the
subsequent staleness evaluation of that file hits the unguarded
error branch of timestamp parsing (the `unwrap` panic, modelled as
`none`). -/
theorem C10_parse_panic :
    get_times (some "f;abc") = some [("f", "abc")] ∧
    is_stale [("f", "abc")] "f" (5, 0) = none := by
  decide

end CompiladorBanco
